import Mathlib

/-!
Verification development for the `curlee` test-asset generator and timing harness
(`scripts/generate_correct_samples.py` and `scripts/benchmark.py`).

The Python code is shallowly embedded: the seeded pseudo-random source
(`random.Random(seed)`) is modelled as an explicit stream of natural-number raw
draws together with a position; each call to `rng.random()` or `rng.randint`
consumes exactly one raw draw.  A comparison `rng.random() < p` is modelled by
reducing the raw draw modulo 1000 and comparing with `p * 1000`, which preserves
exactly the information the code extracts from the draw (a uniform yes/no with
probability `p`).  `rng.randint(0, 1000)` returns an integer from the
*inclusive* range `[0, 1000]` (1001 values), modelled by reducing the raw draw
modulo 1001.
-/

namespace Curlee

/-- The state of the seeded pseudo-random source: an underlying deterministic
stream of raw draws and the current position in it. -/
structure Rng where
  stream : Nat → Nat
  pos : Nat

/-- Consume one raw draw from the source. -/
def Rng.nextRaw (r : Rng) : Nat × Rng :=
  (r.stream r.pos, ⟨r.stream, r.pos + 1⟩)

/-- Model of `rng.random() < 0.4`: one draw is consumed, and the comparison is
decided by the draw reduced modulo 1000 being below 400. -/
def Rng.randomLt04 (r : Rng) : Bool × Rng :=
  let v := r.nextRaw
  (v.1 % 1000 < 400, v.2)

/-- Model of `rng.random() < 0.5`: one draw is consumed, compared against 500. -/
def Rng.randomLt05 (r : Rng) : Bool × Rng :=
  let v := r.nextRaw
  (v.1 % 1000 < 500, v.2)

/-- Model of `rng.randint(0, 1000)`: one draw is consumed and reduced to the
inclusive range `[0, 1000]`, which has 1001 values. -/
def Rng.randint1000 (r : Rng) : Nat × Rng :=
  let v := r.nextRaw
  (v.1 % 1001, v.2)

/-- Embedding of `gen_expr(rng, depth)` from `generate_correct_samples.py`:

    def gen_expr(rng, depth):
        if depth <= 0 or rng.random() < 0.4:
            return str(rng.randint(0, 1000))
        left = gen_expr(rng, depth - 1)
        right = gen_expr(rng, depth - 1)
        expr = f"{left} + {right}"
        if rng.random() < 0.5:
            return f"({expr})"
        return expr

Note the Python `or` short-circuits: when `depth <= 0` the call to
`rng.random()` does not happen, so no draw is consumed by the branch test. -/
def gen_expr (r : Rng) : Nat → String × Rng
  | 0 =>
    let n := r.randint1000
    (toString n.1, n.2)
  | d + 1 =>
    let b := r.randomLt04
    if b.1 then
      let n := b.2.randint1000
      (toString n.1, n.2)
    else
      let l := gen_expr b.2 d
      let rt := gen_expr l.2 d
      let e := l.1 ++ " + " ++ rt.1
      let p := rt.2.randomLt05
      if p.1 then ("(" ++ e ++ ")", p.2) else (e, p.2)

/-- The abstract syntax of the expressions `gen_expr` synthesizes: a literal
integer leaf, or a binary addition (with a flag recording whether the text was
parenthesized). -/
inductive Expr where
  | lit (n : Nat)
  | add (paren : Bool) (l r : Expr)
deriving DecidableEq

/-- The exact text `gen_expr` builds for an expression. -/
def Expr.render : Expr → String
  | .lit n => toString n
  | .add paren l r =>
    let e := l.render ++ " + " ++ r.render
    if paren then "(" ++ e ++ ")" else e

/-- All literal leaves of an expression, in left-to-right order. -/
def Expr.literals : Expr → List Nat
  | .lit n => [n]
  | .add _ l r => l.literals ++ r.literals

/-- Number of nested binary-addition levels. -/
def Expr.addDepth : Expr → Nat
  | .lit _ => 0
  | .add _ l r => 1 + max l.addDepth r.addDepth

/-- Whether the expression is a bare literal leaf. -/
def Expr.isLit : Expr → Bool
  | .lit _ => true
  | .add _ _ _ => false

/-- Structural mirror of `gen_expr`: identical control flow and identical draw
consumption, but returning the synthesized expression as a tree instead of its
text. -/
def gen_expr_ast (r : Rng) : Nat → Expr × Rng
  | 0 =>
    let n := r.randint1000
    (.lit n.1, n.2)
  | d + 1 =>
    let b := r.randomLt04
    if b.1 then
      let n := b.2.randint1000
      (.lit n.1, n.2)
    else
      let l := gen_expr_ast b.2 d
      let rt := gen_expr_ast l.2 d
      let p := rt.2.randomLt05
      (.add p.1 l.1 rt.1, p.2)

theorem gen_expr_eq_ast (d : Nat) (r : Rng) :
    gen_expr r d = (((gen_expr_ast r d).1).render, (gen_expr_ast r d).2) := by
  induction d generalizing r with
  | zero => rfl
  | succ d ih =>
    simp only [gen_expr, gen_expr_ast]
    by_cases hb : (r.randomLt04).1
    · simp [hb, Expr.render]
    · simp only [hb, if_false, Bool.false_eq_true, ih, Expr.render]
      by_cases hp : ((((gen_expr_ast ((gen_expr_ast (r.randomLt04).2 d).2) d).2)).randomLt05).1
      · simp [hp]
      · simp [hp]

theorem gen_expr_ast_addDepth_le (d : Nat) (r : Rng) :
    ((gen_expr_ast r d).1).addDepth ≤ d := by
  induction d generalizing r with
  | zero => simp [gen_expr_ast, Expr.addDepth]
  | succ d ih =>
    simp only [gen_expr_ast]
    by_cases hb : (r.randomLt04).1
    · simp [hb, Expr.addDepth]
    · simp only [hb, if_false, Bool.false_eq_true, Expr.addDepth]
      have h1 := ih (r.randomLt04).2
      have h2 := ih ((gen_expr_ast (r.randomLt04).2 d).2)
      omega

/-- Claim C5: for every random-source state and every starting depth bound `D`,
the expression returned by the synthesizer (whose text is exactly what
`gen_expr` returns) contains at most `D` nested binary-addition levels. -/
theorem gen_expr_depth_bound (r : Rng) (d : Nat) :
    (gen_expr r d).1 = ((gen_expr_ast r d).1).render ∧
    ((gen_expr_ast r d).1).addDepth ≤ d :=
  ⟨congrArg Prod.fst (gen_expr_eq_ast d r), gen_expr_ast_addDepth_le d r⟩

/-- Counterexample to claim C3: `randint(0, 1000)` draws from the *inclusive*
range, so the literal 1000 is reachable, violating `0 ≤ n < 1000`.  On the
stream that constantly yields the raw draw 1000, the synthesizer returns the
literal `1000` at depth 0. -/
theorem gen_expr_literal_1000 :
    (gen_expr ⟨fun _ => 1000, 0⟩ 0).1 = "1000" ∧
    1000 ∈ ((gen_expr_ast ⟨fun _ => 1000, 0⟩ 0).1).literals ∧
    ¬ (1000 < 1000) := by
  decide

/-- Claim C3 (amended): every literal leaf emitted by the synthesizer is an
integer in the *closed* range `[0, 1000]` (Python `randint(0, 1000)` is
inclusive at both ends). -/
theorem gen_expr_literal_le_1000 (r : Rng) (d : Nat) :
    ∀ n ∈ ((gen_expr_ast r d).1).literals, n ≤ 1000 := by
  induction d generalizing r with
  | zero =>
    intro n hn
    simp only [gen_expr_ast, Expr.literals, List.mem_singleton] at hn
    subst hn
    have : (Rng.randint1000 r).1 < 1001 := Nat.mod_lt _ (by norm_num)
    omega
  | succ d ih =>
    intro n hn
    simp only [gen_expr_ast] at hn
    by_cases hb : (r.randomLt04).1
    · simp only [hb, if_true, Expr.literals, List.mem_singleton] at hn
      subst hn
      have : (Rng.randint1000 (r.randomLt04).2).1 < 1001 := Nat.mod_lt _ (by norm_num)
      omega
    · simp only [hb, if_false, Bool.false_eq_true, Expr.literals, List.mem_append] at hn
      rcases hn with hn | hn
      · exact ih _ _ hn
      · exact ih _ _ hn

theorem gen_expr_literal_le_1000_witness :
    0 ∈ ((gen_expr_ast ⟨fun _ => 0, 0⟩ 0).1).literals ∧ (0 : Nat) ≤ 1000 :=
  ⟨by decide, gen_expr_literal_le_1000 ⟨fun _ => 0, 0⟩ 0 0 (by decide)⟩

/-- The synthesizer as the specification words it (kept only for comparison
with `gen_expr`): the uniform draw is performed first on *every* call,
including calls at depth 0, and a literal is emitted iff the depth is 0 or the
draw is below 0.4. -/
def gen_expr_specworded (r : Rng) : Nat → String × Rng
  | 0 =>
    let b := r.randomLt04
    let n := b.2.randint1000
    (toString n.1, n.2)
  | d + 1 =>
    let b := r.randomLt04
    if b.1 then
      let n := b.2.randint1000
      (toString n.1, n.2)
    else
      let l := gen_expr_specworded b.2 d
      let rt := gen_expr_specworded l.2 d
      let e := l.1 ++ " + " ++ rt.1
      let p := rt.2.randomLt05
      if p.1 then ("(" ++ e ++ ")", p.2) else (e, p.2)

/-- Counterexample to claim C4: the Python `or` short-circuits, so at depth 0
no uniform value is drawn and the source advances by only one raw draw (the
`randint` one), not two.  On the stream `i ↦ i`, the code returns `"0"` with
final position 1, whereas a synthesizer that draws the uniform value first (as
the claim states) would return `"1"` with final position 2. -/
theorem gen_expr_draw_order_cex :
    (gen_expr ⟨fun i => i, 0⟩ 0).2.pos = 1 ∧
    (gen_expr_specworded ⟨fun i => i, 0⟩ 0).2.pos = 2 ∧
    (gen_expr ⟨fun i => i, 0⟩ 0).1 = "0" ∧
    (gen_expr_specworded ⟨fun i => i, 0⟩ 0).1 = "1" := by
  decide

/-- Claim C4 (amended): a literal leaf is emitted iff the depth is 0 or the
drawn value is below the termination probability 0.4, but the uniform draw is
performed (and the source advanced by it) only when the depth is positive; at
depth 0 the source advances by exactly one draw (the literal's), and identical
source state and depth always yield the same result. -/
theorem gen_expr_leaf_decision (r : Rng) (d : Nat) :
    (((gen_expr_ast r d).1).isLit = true ↔ (d = 0 ∨ r.stream r.pos % 1000 < 400)) ∧
    (d = 0 → (gen_expr r d).2.pos = r.pos + 1) ∧
    gen_expr ⟨r.stream, r.pos⟩ d = gen_expr r d := by
  refine ⟨?_, ?_, ?_⟩
  · cases d with
    | zero => simp [gen_expr_ast, Expr.isLit]
    | succ d =>
      by_cases hb : r.stream r.pos % 1000 < 400
      · simp [gen_expr_ast, Rng.randomLt04, Rng.nextRaw, hb, Expr.isLit]
      · simp [gen_expr_ast, Rng.randomLt04, Rng.nextRaw, hb, Expr.isLit]
  · intro hd
    subst hd
    rfl
  · cases r
    rfl

theorem gen_expr_leaf_decision_witness :
    ((gen_expr_ast ⟨fun _ => 0, 0⟩ 0).1).isLit = true ∧
    (gen_expr ⟨fun _ => 0, 0⟩ 0).2.pos = 0 + 1 ∧
    gen_expr ⟨(fun _ => 0 : Nat → Nat), 0⟩ 0 = gen_expr ⟨fun _ => 0, 0⟩ 0 :=
  ⟨((gen_expr_leaf_decision ⟨fun _ => 0, 0⟩ 0).1).mpr (Or.inl rfl),
   (gen_expr_leaf_decision ⟨fun _ => 0, 0⟩ 0).2.1 rfl,
   (gen_expr_leaf_decision ⟨fun _ => 0, 0⟩ 0).2.2⟩

/-- The program text built in `main` of `generate_correct_samples.py`:
the result of `"\n".join(["fn main() -> Int \x7b", f"  return \x7bexpr\x7d;", "\x7d", ""])`. -/
def programText (e : String) : String :=
  "fn main() -> Int \x7b\n  return " ++ e ++ ";\n\x7d\n"

/-- The whitespace characters removed by Python `str.strip()`. -/
def pyIsSpace (c : Char) : Bool :=
  c = ' ' || c = '\t' || c = '\n' || c = '\x0d' || c = '\x0b' || c = '\x0c'

/-- Python `str.strip()`: remove leading and trailing whitespace. -/
def pyStrip (s : String) : String :=
  ⟨((s.data.dropWhile pyIsSpace).reverse.dropWhile pyIsSpace).reverse⟩

/-- Decimal digits of a natural number, most significant first (`n = 0` gives
`[0]`); the fuel argument is always sufficient because `n` shrinks at least
geometrically. -/
def natDigitsAux : Nat → Nat → List Nat
  | 0, _ => []
  | fuel + 1, n => if n < 10 then [n] else natDigitsAux fuel (n / 10) ++ [n % 10]

def natDigits (n : Nat) : List Nat := natDigitsAux (n + 1) n

/-- Python `f"\x7bidx:04d\x7d"` for a nonnegative index: the decimal rendering
zero-padded on the left to a *minimum* width of 4. -/
def pyFormat04d (n : Nat) : String :=
  ⟨List.replicate (4 - (natDigits n).length) '0' ++ (natDigits n).map Nat.digitChar⟩

/-- The sample filename `f"sample_\x7bidx:04d\x7d.curlee"`. -/
def sampleName (idx : Nat) : String :=
  "sample_" ++ pyFormat04d idx ++ ".curlee"

/-- The generation loop of `main`: starting at index `idx`, produce the given
number of samples, threading the random source through the recursive calls to
`gen_expr` (each at depth 3).  Returns the `(filename, file content)` pairs in
index order together with the final source state. -/
def genFiles : Rng → Nat → Nat → List (String × String) × Rng
  | r, _, 0 => ([], r)
  | r, idx, n + 1 =>
    let e := gen_expr r 3
    let rest := genFiles e.2 (idx + 1) n
    ((sampleName idx, programText e.1) :: rest.1, rest.2)

/-- The 3-line provenance header of the corpus file. -/
def corpusHeader (seed count : Int) : String :=
  "# Curlee correct_samples dataset\n# seed=" ++ toString seed ++
    "\n# count=" ++ toString count ++ "\n"

/-- Everything `main` of the generator writes: the per-sample files, the corpus
file contents, whether the output directory was created, and the exit code. -/
structure GenOutput where
  files : List (String × String)
  corpus : String
  mkdirCalled : Bool
  exitCode : Nat
deriving DecidableEq

/-- Embedding of `main` of `generate_correct_samples.py`, parametric in the raw
stream standing for `random.Random(seed)`.  `range(1, count + 1)` iterates
`count.toNat` times (none for a non-positive count); the corpus is
`header + "\n---\n".join(samples) + "\n"` where each entry of `samples` is the
stripped program text. -/
def generatorRun (stream : Nat → Nat) (seed count : Int) : GenOutput :=
  let fs := genFiles ⟨stream, 0⟩ 1 count.toNat
  let samples := fs.1.map fun p => pyStrip p.2
  { files := fs.1
    corpus := corpusHeader seed count ++ String.intercalate "\n---\n" samples ++ "\n"
    mkdirCalled := true
    exitCode := 0 }

/-- Stand-in for the deterministic raw-draw stream of `random.Random(seed)`.
The concrete Mersenne-Twister values are irrelevant to every claim below; what
matters is that the stream is a fixed pure function of the seed alone. -/
def seedStream (seed : Int) : Nat → Nat :=
  fun i => (seed.natAbs + 2 * i + 1) * (seed.natAbs + 3 * i + 1664525) % 4294967296

/-- The generator exactly as invoked: the random source is seeded from the
`--seed` argument and everything else follows `generatorRun`. -/
def generatorMain (seed count : Int) : GenOutput :=
  generatorRun (seedStream seed) seed count

/-- Claim C1: for a fixed seed and count, two independent runs of the generator
produce byte-identical corpus contents and identical per-file contents — the
output is a deterministic function of `(seed, count)`. -/
theorem generator_deterministic (s₁ s₂ c₁ c₂ : Int) (hs : s₁ = s₂) (hc : c₁ = c₂) :
    (generatorMain s₁ c₁).corpus = (generatorMain s₂ c₂).corpus ∧
    (generatorMain s₁ c₁).files = (generatorMain s₂ c₂).files := by
  subst hs
  subst hc
  exact ⟨rfl, rfl⟩

theorem generator_deterministic_witness :
    (1337 : Int) = 1337 ∧ (3 : Int) = 3 ∧
    ((generatorMain 1337 3).corpus = (generatorMain 1337 3).corpus ∧
     (generatorMain 1337 3).files = (generatorMain 1337 3).files) :=
  ⟨rfl, rfl, generator_deterministic 1337 1337 3 3 rfl rfl⟩

theorem genFiles_length (n : Nat) : ∀ (r : Rng) (idx : Nat),
    ((genFiles r idx n).1).length = n := by
  induction n with
  | zero => intro r idx; rfl
  | succ n ih =>
    intro r idx
    simp only [genFiles, List.length_cons, ih]

/-- The corpus layout exactly as the claim words it (kept only for comparison
with the corpus the code writes): the header, then a separator line `---`, then
the stripped program texts joined by `\n---\n`. -/
def corpusClaimed (seed count : Int) (progs : List String) : String :=
  corpusHeader seed count ++ "---\n" ++ String.intercalate "\n---\n" progs ++ "\n"

/-- Counterexample to claim C2: the code writes
`header + "\n---\n".join(samples) + "\n"`, so no separator line stands between
the header and the first program.  With the all-zero stream and `count = 1` the
corpus is the header followed directly by the single program — it contains no
`---` line at all, unlike the layout the claim describes. -/
theorem corpus_layout_cex :
    (generatorRun (fun _ => 0) 0 1).corpus =
      "# Curlee correct_samples dataset\n# seed=0\n# count=1\nfn main() -> Int \x7b\n  return 0;\n\x7d\n" ∧
    (generatorRun (fun _ => 0) 0 1).corpus ≠
      corpusClaimed 0 1 ((generatorRun (fun _ => 0) 0 1).files.map fun p => pyStrip p.2) := by
  constructor
  · decide
  · decide

/-- Claim C2 (amended): the corpus file consists of the 3-line header, then the
generated programs' trimmed texts joined by `\n---\n` (no separator line
between the header and the first program), then a trailing newline; the number
of joined program sections equals `count`. -/
theorem corpus_structure (stream : Nat → Nat) (seed count : Int) (h : 1 ≤ count) :
    (generatorRun stream seed count).corpus =
      corpusHeader seed count ++
        String.intercalate "\n---\n"
          ((generatorRun stream seed count).files.map fun p => pyStrip p.2) ++ "\n" ∧
    (((generatorRun stream seed count).files.map fun p => pyStrip p.2).length : Int) = count := by
  refine ⟨rfl, ?_⟩
  simp only [generatorRun, List.length_map, genFiles_length]
  exact Int.toNat_of_nonneg (by omega)

theorem corpus_structure_witness :
    (1 : Int) ≤ 2 ∧
    ((generatorRun (fun _ => 0) 0 2).corpus =
      corpusHeader 0 2 ++
        String.intercalate "\n---\n"
          ((generatorRun (fun _ => 0) 0 2).files.map fun p => pyStrip p.2) ++ "\n" ∧
    (((generatorRun (fun _ => 0) 0 2).files.map fun p => pyStrip p.2).length : Int) = 2) :=
  ⟨by decide, corpus_structure (fun _ => 0) 0 2 (by decide)⟩

/-- Claim C10: invoked with a non-positive count the generator writes no sample
files, still creates the output directory, writes a corpus consisting of the
3-line header followed by a single extra newline, and exits with code 0. -/
theorem nonpositive_count_noop (stream : Nat → Nat) (seed count : Int) (h : count ≤ 0) :
    generatorRun stream seed count =
      ⟨[], corpusHeader seed count ++ "\n", true, 0⟩ := by
  unfold generatorRun
  rw [Int.toNat_of_nonpos h]
  simp [genFiles, String.intercalate]

theorem nonpositive_count_noop_witness :
    (-1 : Int) ≤ 0 ∧
    generatorRun (fun _ => 0) 5 (-1) =
      ⟨[], corpusHeader 5 (-1) ++ "\n", true, 0⟩ :=
  ⟨by decide, nonpositive_count_noop (fun _ => 0) 5 (-1) (by decide)⟩

/-- The numeric value of a digit list, most significant digit first. -/
def digitsVal (l : List Nat) : Nat := l.foldl (fun a d => a * 10 + d) 0

theorem digitsVal_foldl (l : List Nat) : ∀ a : Nat,
    List.foldl (fun a d => a * 10 + d) a l = a * 10 ^ l.length + digitsVal l := by
  induction l with
  | nil => intro a; simp [digitsVal]
  | cons d l ih =>
    intro a
    simp only [List.foldl_cons, List.length_cons, digitsVal]
    rw [ih (a * 10 + d), ih (0 * 10 + d)]
    ring

theorem digitsVal_cons (a : Nat) (l : List Nat) :
    digitsVal (a :: l) = a * 10 ^ l.length + digitsVal l := by
  simpa [digitsVal] using digitsVal_foldl l a

theorem digitsVal_lt_pow (l : List Nat) (h : ∀ d ∈ l, d < 10) :
    digitsVal l < 10 ^ l.length := by
  induction l with
  | nil => simp [digitsVal]
  | cons a l ih =>
    have ha : a < 10 := h a (List.mem_cons_self a l)
    have hl := ih fun d hd => h d (List.mem_cons_of_mem a hd)
    rw [digitsVal_cons]
    calc a * 10 ^ l.length + digitsVal l
        < a * 10 ^ l.length + 10 ^ l.length := by omega
      _ = (a + 1) * 10 ^ l.length := by ring
      _ ≤ 10 * 10 ^ l.length := by
          have : a + 1 ≤ 10 := ha
          exact Nat.mul_le_mul_right _ this
      _ = 10 ^ (a :: l).length := by rw [List.length_cons]; ring

theorem natDigitsAux_lt10 : ∀ (fuel n : Nat), ∀ d ∈ natDigitsAux fuel n, d < 10 := by
  intro fuel
  induction fuel with
  | zero => intro n d hd; simp [natDigitsAux] at hd
  | succ fuel ih =>
    intro n d hd
    simp only [natDigitsAux] at hd
    by_cases h : n < 10
    · simp [h] at hd; omega
    · simp only [h, if_false, List.mem_append, List.mem_singleton] at hd
      rcases hd with hd | hd
      · exact ih _ _ hd
      · subst hd; exact Nat.mod_lt _ (by norm_num)

theorem digitsVal_natDigitsAux : ∀ (fuel n : Nat), n < fuel →
    digitsVal (natDigitsAux fuel n) = n := by
  intro fuel
  induction fuel with
  | zero => intro n h; omega
  | succ fuel ih =>
    intro n h
    simp only [natDigitsAux]
    by_cases hn : n < 10
    · simp [hn, digitsVal]
    · simp only [hn, if_false]
      have hpos : 0 < n := by omega
      have hdiv : n / 10 < n := Nat.div_lt_self hpos (by norm_num)
      have : n / 10 < fuel := by omega
      simp only [digitsVal, List.foldl_append, List.foldl_cons, List.foldl_nil]
      have := digitsVal_foldl (natDigitsAux fuel (n / 10)) 0
      have hv : List.foldl (fun a d => a * 10 + d) 0 (natDigitsAux fuel (n / 10)) = n / 10 :=
        ih (n / 10) (by omega)
      rw [hv]
      omega

theorem natDigitsAux_length_le : ∀ (fuel n k : Nat), n < fuel → 1 ≤ k → n < 10 ^ k →
    (natDigitsAux fuel n).length ≤ k := by
  intro fuel
  induction fuel with
  | zero => intro n k h; omega
  | succ fuel ih =>
    intro n k h hk hnk
    simp only [natDigitsAux]
    by_cases hn : n < 10
    · simp [hn]; omega
    · simp only [hn, if_false, List.length_append, List.length_singleton]
      have hpos : 0 < n := by omega
      have hdiv : n / 10 < n := Nat.div_lt_self hpos (by norm_num)
      have hk2 : 2 ≤ k := by
        by_contra hc
        have : k = 1 := by omega
        subst this
        simp at hnk
        omega
      have hdivpow : n / 10 < 10 ^ (k - 1) := by
        rw [Nat.div_lt_iff_lt_mul (by norm_num : (0:Nat) < 10)]
        have : 10 ^ (k - 1) * 10 = 10 ^ k := by
          rw [← pow_succ]
          congr 1
          omega
        omega
      have := ih (n / 10) (k - 1) (by omega) (by omega) hdivpow
      omega

theorem natDigits_lt10 (n : Nat) : ∀ d ∈ natDigits n, d < 10 :=
  natDigitsAux_lt10 (n + 1) n

theorem digitsVal_natDigits (n : Nat) : digitsVal (natDigits n) = n :=
  digitsVal_natDigitsAux (n + 1) n (Nat.lt_succ_self n)

theorem natDigits_length_le_four (n : Nat) (h : n ≤ 9999) : (natDigits n).length ≤ 4 :=
  natDigitsAux_length_le (n + 1) n 4 (Nat.lt_succ_self n) (by norm_num) (by omega)

/-- The padded digit list underlying `pyFormat04d`. -/
def pad4digits (n : Nat) : List Nat :=
  List.replicate (4 - (natDigits n).length) 0 ++ natDigits n

theorem pad4digits_lt10 (n : Nat) : ∀ d ∈ pad4digits n, d < 10 := by
  intro d hd
  simp only [pad4digits, List.mem_append, List.mem_replicate] at hd
  rcases hd with hd | hd
  · omega
  · exact natDigits_lt10 n d hd

theorem digitsVal_replicate_zero (k : Nat) (l : List Nat) :
    digitsVal (List.replicate k 0 ++ l) = digitsVal l := by
  induction k with
  | zero => simp
  | succ k ih => simpa [digitsVal, List.replicate_succ] using ih

theorem digitsVal_pad4digits (n : Nat) : digitsVal (pad4digits n) = n := by
  rw [pad4digits, digitsVal_replicate_zero, digitsVal_natDigits]

theorem pad4digits_length (n : Nat) (h : n ≤ 9999) : (pad4digits n).length = 4 := by
  have h1 := natDigits_length_le_four n h
  have h2 : 1 ≤ (natDigits n).length := by
    simp only [natDigits, natDigitsAux]
    by_cases hn : n < 10 <;> simp [hn]
  simp only [pad4digits, List.length_append, List.length_replicate]
  omega

theorem pyFormat04d_data (n : Nat) :
    (pyFormat04d n).data = (pad4digits n).map Nat.digitChar := by
  simp [pyFormat04d, pad4digits, List.map_append, List.map_replicate, Nat.digitChar]

theorem pyFormat04d_length (n : Nat) (h : n ≤ 9999) : (pyFormat04d n).length = 4 := by
  have : (pyFormat04d n).length = (pyFormat04d n).data.length := rfl
  rw [this, pyFormat04d_data, List.length_map, pad4digits_length n h]

theorem lex_of_digitsVal_lt : ∀ (l₁ l₂ : List Nat), l₁.length = l₂.length →
    (∀ d ∈ l₂, d < 10) → digitsVal l₁ < digitsVal l₂ →
    List.Lex (· < ·) l₁ l₂ := by
  intro l₁
  induction l₁ with
  | nil =>
    intro l₂ hlen _ hval
    cases l₂ with
    | nil => simp [digitsVal] at hval
    | cons b bs => simp at hlen
  | cons a as ih =>
    intro l₂ hlen hb hval
    cases l₂ with
    | nil => simp at hlen
    | cons b bs =>
      have hlen' : as.length = bs.length := by simpa using hlen
      rcases Nat.lt_trichotomy a b with h | h | h
      · exact List.Lex.rel h
      · subst h
        refine List.Lex.cons (ih bs hlen' (fun d hd => hb d (List.mem_cons_of_mem _ hd)) ?_)
        rw [digitsVal_cons, digitsVal_cons, hlen'] at hval
        omega
      · exfalso
        have hvbs : digitsVal bs < 10 ^ bs.length :=
          digitsVal_lt_pow bs fun d hd => hb d (List.mem_cons_of_mem _ hd)
        rw [digitsVal_cons, digitsVal_cons, hlen'] at hval
        have : (b + 1) * 10 ^ bs.length ≤ a * 10 ^ bs.length :=
          Nat.mul_le_mul_right _ (by omega)
        nlinarith

theorem digitChar_lt_digitChar :
    ∀ a, a < 10 → ∀ b, b < 10 → a < b → Nat.digitChar a < Nat.digitChar b := by
  decide

theorem lex_map_digitChar : ∀ (l₁ l₂ : List Nat), (∀ d ∈ l₁, d < 10) → (∀ d ∈ l₂, d < 10) →
    List.Lex (· < ·) l₁ l₂ →
    List.Lex (· < ·) (l₁.map Nat.digitChar) (l₂.map Nat.digitChar) := by
  intro l₁ l₂ h₁ h₂ h
  induction h with
  | nil => exact List.Lex.nil
  | @cons a t₁ t₂ ht ih =>
    exact List.Lex.cons (ih (fun d hd => h₁ d (List.mem_cons_of_mem _ hd))
      (fun d hd => h₂ d (List.mem_cons_of_mem _ hd)))
  | @rel a₁ t₁ a₂ t₂ hab =>
    exact List.Lex.rel (digitChar_lt_digitChar a₁ (h₁ a₁ (List.mem_cons_self _ _))
      a₂ (h₂ a₂ (List.mem_cons_self _ _)) hab)

theorem lex_append_left : ∀ (p l₁ l₂ : List Char), List.Lex (· < ·) l₁ l₂ →
    List.Lex (· < ·) (p ++ l₁) (p ++ l₂) := by
  intro p
  induction p with
  | nil => intro l₁ l₂ h; exact h
  | cons c p ih => intro l₁ l₂ h; exact List.Lex.cons (ih l₁ l₂ h)

theorem lex_append_right : ∀ (l₁ l₂ s : List Char), l₁.length = l₂.length →
    List.Lex (· < ·) l₁ l₂ → List.Lex (· < ·) (l₁ ++ s) (l₂ ++ s) := by
  intro l₁ l₂ s hlen h
  induction h with
  | nil => simp at hlen
  | @cons a t₁ t₂ ht ih => exact List.Lex.cons (ih (by simpa using hlen))
  | @rel a₁ t₁ a₂ t₂ hab => exact List.Lex.rel hab

theorem pyFormat04d_lt (m n : Nat) (hmn : m < n) (hn : n ≤ 9999) :
    List.Lex (· < ·) (pyFormat04d m).data (pyFormat04d n).data := by
  rw [pyFormat04d_data, pyFormat04d_data]
  refine lex_map_digitChar _ _ (pad4digits_lt10 m) (pad4digits_lt10 n) ?_
  refine lex_of_digitsVal_lt _ _ ?_ (pad4digits_lt10 n) ?_
  · rw [pad4digits_length m (by omega), pad4digits_length n hn]
  · rw [digitsVal_pad4digits, digitsVal_pad4digits]
    exact hmn

theorem sampleName_lt (m n : Nat) (hmn : m < n) (hn : n ≤ 9999) :
    sampleName m < sampleName n := by
  rw [String.lt_iff_toList_lt]
  show List.Lex (· < ·) (sampleName m).data (sampleName n).data
  simp only [sampleName, String.data_append]
  rw [List.append_assoc, List.append_assoc]
  refine lex_append_left _ _ _ ?_
  refine lex_append_right _ _ _ ?_ ?_
  · have h1 : (pyFormat04d m).data.length = (pyFormat04d m).length := rfl
    have h2 : (pyFormat04d n).data.length = (pyFormat04d n).length := rfl
    rw [h1, h2, pyFormat04d_length m (by omega), pyFormat04d_length n hn]
  · exact pyFormat04d_lt m n hmn hn

theorem genFiles_names : ∀ (n : Nat) (r : Rng) (idx : Nat),
    ((genFiles r idx n).1).map Prod.fst = (List.range n).map fun i => sampleName (idx + i) := by
  intro n
  induction n with
  | zero => intro r idx; rfl
  | succ n ih =>
    intro r idx
    simp only [genFiles, List.map_cons, ih, List.range_succ_eq_map, List.map_map,
      List.cons.injEq, List.map_inj_left, Function.comp_apply, List.mem_range]
    refine ⟨by simp, fun i hi => ?_⟩
    congr 1
    omega

/-- Counterexample to claim C6: Python `\x7bidx:04d\x7d` pads to a *minimum*
width of 4, so index 10000 yields the 5-digit name `sample_10000.curlee`, which
is not 4-digit zero-padded and sorts lexicographically *before*
`sample_9999.curlee`. -/
theorem sampleName_cex :
    sampleName 10000 = "sample_10000.curlee" ∧
    ¬ (sampleName 9999 < sampleName 10000) := by
  constructor
  · decide
  · rw [String.lt_iff_toList_lt]
    decide

/-- Claim C6 (amended): for indices up to 9999 the generated filename is
`sample_` followed by the exactly-4-character zero-padded index and the
`.curlee` suffix, and the names are strictly increasing in the index (beyond
9999 the code pads to minimum width 4, producing longer names that break both
properties); in particular `count = 500` yields `sample_0001.curlee` through
`sample_0500.curlee`. -/
theorem sampleName_amended :
    (∀ idx, idx ≤ 9999 → (pyFormat04d idx).length = 4) ∧
    (∀ m n, m < n → n ≤ 9999 → sampleName m < sampleName n) ∧
    (∀ (stream : Nat → Nat) (seed : Int),
      (generatorRun stream seed 500).files.map Prod.fst =
        (List.range 500).map fun i => sampleName (i + 1)) := by
  refine ⟨fun idx h => pyFormat04d_length idx h, fun m n hmn hn => sampleName_lt m n hmn hn, ?_⟩
  intro stream seed
  show ((genFiles ⟨stream, 0⟩ 1 (500 : Int).toNat).1).map Prod.fst = _
  rw [genFiles_names]
  apply List.map_congr_left
  intro i _
  congr 1
  omega

theorem sampleName_amended_witness :
    (pyFormat04d 500).length = 4 ∧
    sampleName 1 < sampleName 500 ∧
    (generatorRun (fun _ => 0) 0 500).files.map Prod.fst =
      (List.range 500).map fun i => sampleName (i + 1) :=
  ⟨sampleName_amended.1 500 (by decide),
   sampleName_amended.2.1 1 500 (by decide) (by decide),
   sampleName_amended.2.2 (fun _ => 0) 0⟩

/-- Whether a filename matches the glob pattern `*.curlee`. -/
def matchesCurlee (f : String) : Bool := ".curlee".data.isSuffixOf f.data

/-- Embedding of `iter_samples(dirs)` from `benchmark.py`: each configured
directory is given by the list of its filenames; the files matching `*.curlee`
are listed sorted within each directory (`sorted(d.glob("*.curlee"))`), and the
per-directory lists are concatenated in configuration order. -/
def iter_samples (dirs : List (List String)) : List String :=
  (dirs.map fun d => List.insertionSort (· ≤ ·) (d.filter matchesCurlee)).flatten

/-- One timed pass of the benchmark loop:
`subprocess.run([curlee, "check", sample], check=True)` for each sample in
order, where `check=True` raises on the first non-zero exit code.  The subject
tool is abstracted as its exit-code function; the returned list records which
samples were invoked, and the flag records whether the pass completed. -/
def runPass (e : String → Nat) : List String → List String × Bool
  | [] => ([], true)
  | s :: rest =>
    if e s = 0 then
      let t := runPass e rest
      (s :: t.1, t.2)
    else ([s], false)

/-- The invocations a failing pass performs: every sample up to and including
the first one on which the subject tool exits non-zero. -/
def truncatedAtFail (e : String → Nat) (l : List String) : List String :=
  l.takeWhile (fun s => e s == 0) ++ (l.dropWhile (fun s => e s == 0)).take 1

/-- The `for _ in range(args.runs)` loop of `benchmark.py`: the subject tool's
exit codes may vary between passes (`e` takes the pass index), a raised
`CalledProcessError` propagates and stops everything.  Returns the flattened
invocation trace, the number of passes started (each started pass records one
start timestamp), and whether all passes completed. -/
def benchLoop (e : Nat → String → Nat) (samples : List String) :
    Nat → Nat → List String × Nat × Bool
  | _, 0 => ([], 0, true)
  | i, n + 1 =>
    let p := runPass (e i) samples
    if p.2 then
      let rest := benchLoop e samples (i + 1) n
      (p.1 ++ rest.1, rest.2.1 + 1, rest.2.2)
    else (p.1, 1, false)

/-- The reported aggregate of a successful benchmark. -/
structure BenchResult where
  nsamples : Nat
  nruns : Nat
  avgSeconds : ℚ

/-- Everything observable about one invocation of the benchmark runner: the
subject-tool invocations performed (in order), the number of passes started,
and either the printed aggregate or the fatal error that terminated the
process. -/
structure BenchTrace where
  invoked : List String
  passesStarted : Nat
  result : Except String BenchResult

/-- Embedding of `main` of `benchmark.py`.  The filesystem is abstracted to
whether the configured tool path exists and to the directory listings; the
wall clock is abstracted to the oracle `elapsed` giving each pass's duration.
The checks happen in source order: tool existence, then non-empty sample set,
then the timed loop; `avg = total / args.runs` raises `ZeroDivisionError` when
`runs = 0` (Python float division by an integer zero). -/
def benchMain (toolExists : Bool) (dirs : List (List String)) (runs : Nat)
    (e : Nat → String → Nat) (elapsed : Nat → ℚ) : BenchTrace :=
  if toolExists then
    let samples := iter_samples dirs
    if samples.isEmpty then ⟨[], 0, .error "no samples found"⟩
    else
      let lp := benchLoop e samples 0 runs
      if lp.2.2 then
        if runs = 0 then
          ⟨lp.1, lp.2.1, .error "ZeroDivisionError: float division by zero"⟩
        else
          ⟨lp.1, lp.2.1,
            .ok ⟨samples.length, runs, (((List.range runs).map elapsed).sum) / (runs : ℚ)⟩⟩
      else ⟨lp.1, lp.2.1, .error "CalledProcessError"⟩
  else ⟨[], 0, .error "curlee binary not found"⟩

theorem runPass_all_ok (e : String → Nat) : ∀ l : List String, (∀ s ∈ l, e s = 0) →
    runPass e l = (l, true) := by
  intro l
  induction l with
  | nil => intro _; rfl
  | cons s rest ih =>
    intro h
    have hs : e s = 0 := h s (List.mem_cons_self _ _)
    simp only [runPass, hs, if_true, ih fun x hx => h x (List.mem_cons_of_mem _ hx)]

theorem runPass_fail (e : String → Nat) : ∀ l : List String, (∃ s ∈ l, e s ≠ 0) →
    runPass e l = (truncatedAtFail e l, false) := by
  intro l
  induction l with
  | nil => rintro ⟨s, hs, _⟩; exact absurd hs (List.not_mem_nil s)
  | cons s rest ih =>
    rintro ⟨x, hx, hxe⟩
    by_cases hs : e s = 0
    · have hxr : x ∈ rest := by
        rcases List.mem_cons.mp hx with h | h
        · subst h; exact absurd hs hxe
        · exact h
      simp only [runPass, hs, if_true, ih ⟨x, hxr, hxe⟩, truncatedAtFail,
        List.takeWhile_cons, List.dropWhile_cons, hs, beq_self_eq_true, if_true,
        List.cons_append]
    · simp only [runPass, hs, if_false, truncatedAtFail, List.takeWhile_cons,
        List.dropWhile_cons]
      have : (e s == 0) = false := by simpa using hs
      simp [this]

theorem benchLoop_fail (e : Nat → String → Nat) (samples : List String) :
    ∀ (j i n : Nat), j < n →
    (∀ k, k < j → ∀ s ∈ samples, e (i + k) s = 0) →
    (∃ s ∈ samples, e (i + j) s ≠ 0) →
    benchLoop e samples i n =
      ((List.replicate j samples).flatten ++ truncatedAtFail (e (i + j)) samples,
        j + 1, false) := by
  intro j
  induction j with
  | zero =>
    intro i n hn hok hfail
    cases n with
    | zero => omega
    | succ m =>
      rw [Nat.add_zero] at hfail
      simp [benchLoop, runPass_fail (e i) samples hfail]
  | succ j ih =>
    intro i n hn hok hfail
    cases n with
    | zero => omega
    | succ m =>
      have hpass : ∀ s ∈ samples, e i s = 0 := by
        have := hok 0 (Nat.succ_pos j)
        simpa using this
      have hok' : ∀ k, k < j → ∀ s ∈ samples, e (i + 1 + k) s = 0 := by
        intro k hk s hsm
        have := hok (k + 1) (by omega) s hsm
        have harith : i + (k + 1) = i + 1 + k := by omega
        rwa [harith] at this
      have hfail' : ∃ s ∈ samples, e (i + 1 + j) s ≠ 0 := by
        have harith : i + (j + 1) = i + 1 + j := by omega
        rwa [harith] at hfail
      have hrest := ih (i + 1) m (by omega) hok' hfail'
      have harith : i + 1 + j = i + (j + 1) := by omega
      rw [harith] at hrest
      simp [benchLoop, runPass_all_ok (e i) samples hpass, hrest,
        List.replicate_succ, List.append_assoc]

/-- Claim C7: if any subject-tool invocation exits non-zero — here: all passes
before pass `j` succeed on every sample and pass `j` hits some failing
sample — the runner aborts the whole benchmark at the first failing
invocation: the trace stops at that invocation (no later sample of the
SampleSet is invoked), no further pass is started, and the result is the
propagated fatal error rather than any average. -/
theorem benchmark_aborts_on_nonzero_exit (dirs : List (List String)) (runs : Nat)
    (e : Nat → String → Nat) (elapsed : Nat → ℚ) (j : Nat)
    (hj : j < runs)
    (hok : ∀ k, k < j → ∀ s ∈ iter_samples dirs, e k s = 0)
    (hfail : ∃ s ∈ iter_samples dirs, e j s ≠ 0) :
    (benchMain true dirs runs e elapsed).result = .error "CalledProcessError" ∧
    (benchMain true dirs runs e elapsed).passesStarted = j + 1 ∧
    (benchMain true dirs runs e elapsed).invoked =
      (List.replicate j (iter_samples dirs)).flatten ++
        truncatedAtFail (e j) (iter_samples dirs) := by
  have hne : (iter_samples dirs).isEmpty = false := by
    rcases hfail with ⟨s, hs, _⟩
    cases hx : (iter_samples dirs).isEmpty
    · rfl
    · rw [List.isEmpty_iff.mp hx] at hs
      exact absurd hs (List.not_mem_nil s)
  have hloop := benchLoop_fail e (iter_samples dirs) j 0 runs hj
    (by simpa using hok) (by simpa using hfail)
  simp only [Nat.zero_add] at hloop
  refine ⟨?_, ?_, ?_⟩ <;> simp [benchMain, hne, hloop]

theorem benchmark_aborts_witness :
    (benchMain true [["a.curlee"]] 1 (fun _ _ => 1) (fun _ => 0)).result =
      .error "CalledProcessError" ∧
    (benchMain true [["a.curlee"]] 1 (fun _ _ => 1) (fun _ => 0)).passesStarted = 0 + 1 ∧
    (benchMain true [["a.curlee"]] 1 (fun _ _ => 1) (fun _ => 0)).invoked =
      (List.replicate 0 (iter_samples [["a.curlee"]])).flatten ++
        truncatedAtFail ((fun _ _ => 1) 0) (iter_samples [["a.curlee"]]) :=
  benchmark_aborts_on_nonzero_exit [["a.curlee"]] 1 (fun _ _ => 1) (fun _ => 0) 0
    (by decide) (fun k hk => absurd hk (Nat.not_lt_zero k))
    ⟨"a.curlee", by decide, by decide⟩

/-- Claim C8: a missing subject-tool path or an empty sample set terminates
the runner with a descriptive error and a non-zero exit before any timed work:
no pass is started (so no timestamp is recorded) and no subject-tool
invocation is performed. -/
theorem benchmark_config_errors (toolE : Bool) (dirs : List (List String)) (runs : Nat)
    (e : Nat → String → Nat) (elapsed : Nat → ℚ) :
    (toolE = false →
      benchMain toolE dirs runs e elapsed = ⟨[], 0, .error "curlee binary not found"⟩) ∧
    (toolE = true → iter_samples dirs = [] →
      benchMain toolE dirs runs e elapsed = ⟨[], 0, .error "no samples found"⟩) := by
  constructor
  · intro h
    subst h
    rfl
  · intro h hs
    subst h
    simp [benchMain, hs]

theorem benchmark_config_errors_witness :
    (benchMain false [["a.curlee"]] 1 (fun _ _ => 0) (fun _ => 0) =
      ⟨[], 0, .error "curlee binary not found"⟩) ∧
    (benchMain true [["x.txt"]] 1 (fun _ _ => 0) (fun _ => 0) =
      ⟨[], 0, .error "no samples found"⟩) :=
  ⟨(benchmark_config_errors false [["a.curlee"]] 1 (fun _ _ => 0) (fun _ => 0)).1 rfl,
   (benchmark_config_errors true [["x.txt"]] 1 (fun _ _ => 0) (fun _ => 0)).2 rfl (by decide)⟩

/-- Claim C9: with `runs = 0` and both configuration checks passing, the
timing loop executes zero times and the unguarded `total / args.runs` raises
`ZeroDivisionError`: the runner fails instead of reporting a result. -/
theorem benchmark_runs_zero_division (dirs : List (List String))
    (e : Nat → String → Nat) (elapsed : Nat → ℚ) (h : iter_samples dirs ≠ []) :
    benchMain true dirs 0 e elapsed =
      ⟨[], 0, .error "ZeroDivisionError: float division by zero"⟩ := by
  have hemp : (iter_samples dirs).isEmpty = false := by
    cases hx : (iter_samples dirs).isEmpty
    · rfl
    · exact absurd (List.isEmpty_iff.mp hx) h
  simp [benchMain, hemp, benchLoop]

theorem benchmark_runs_zero_division_witness :
    iter_samples [["a.curlee"]] ≠ [] ∧
    benchMain true [["a.curlee"]] 0 (fun _ _ => 0) (fun _ => 0) =
      ⟨[], 0, .error "ZeroDivisionError: float division by zero"⟩ :=
  ⟨by decide, benchmark_runs_zero_division [["a.curlee"]] (fun _ _ => 0) (fun _ => 0) (by decide)⟩

end Curlee
